import Mathlib

/-!
Shallow embedding of the lattice-polygon decomposition and geometric-consistency
engine of the Lattice_Points_Grapher repository: the unit-triangle decomposer,
adjacency sequencer, accumulated-region hull builder and shared-edge locator of
`docs/js/induction.js`, and the geometric validators and boundary lattice point
collector of `docs/js/geometry.js` (bundled with `docs/js/render.js`).

Lattice points carry exact integer coordinates; the JS code only ever applies
these functions to integer lattice points, where all JS float arithmetic is
exact, so `Int`/`ℚ` model it faithfully.
-/

/-- A lattice point: integer pair, exact equality (JS compares `v.x === w.x && v.y === w.y`,
or equivalently the string key `x,y`, both of which coincide with coordinate equality). -/
structure Point where
  x : Int
  y : Int
deriving DecidableEq, Repr

instance : Inhabited Point := ⟨⟨0, 0⟩⟩

/-- `geometry.js` `orientation(a, b, c)`:
`(b.x - a.x) * (c.y - a.y) - (b.y - a.y) * (c.x - a.x)`. -/
def orientation (a b c : Point) : Int :=
  (b.x - a.x) * (c.y - a.y) - (b.y - a.y) * (c.x - a.x)

/-- `geometry.js` `onSegment(a, b, c)`: bounding-box test for b against segment ac. -/
def onSegment (a b c : Point) : Bool :=
  decide (min a.x c.x ≤ b.x) && decide (b.x ≤ max a.x c.x) &&
  decide (min a.y c.y ≤ b.y) && decide (b.y ≤ max a.y c.y)

/-- `geometry.js` `segmentsIntersect(p1, p2, p3, p4)`: the four early
`return true` collinear cases, else the strict orientation-sign test. -/
def segmentsIntersect (p1 p2 p3 p4 : Point) : Bool :=
  let o1 := orientation p1 p2 p3
  let o2 := orientation p1 p2 p4
  let o3 := orientation p3 p4 p1
  let o4 := orientation p3 p4 p2
  (decide (o1 = 0) && onSegment p1 p3 p2) ||
  (decide (o2 = 0) && onSegment p1 p4 p2) ||
  (decide (o3 = 0) && onSegment p3 p1 p4) ||
  (decide (o4 = 0) && onSegment p3 p2 p4) ||
  (decide (o1 * o2 < 0) && decide (o3 * o4 < 0))

/-- The shoelace accumulator of `geometry.js` `polygonAreaValue`: the loop
`area2 += current.x * next.y - next.x * current.y` over wrapping index pairs. -/
def polygonArea2 (vs : List Point) : Int :=
  (List.range vs.length).foldl
    (fun acc i =>
      let c := vs.getD i default
      let nx := vs.getD ((i + 1) % vs.length) default
      acc + (c.x * nx.y - nx.x * c.y))
    0

/-- `geometry.js` `polygonAreaValue(vertices)`: 0 for fewer than 3 vertices,
else `area2 / 2`.  On integer lattice vertices the JS float division by 2 is
exact, so the value lives in `ℚ`. -/
def polygonAreaValue (vs : List Point) : ℚ :=
  if vs.length < 3 then 0 else (polygonArea2 vs : ℚ) / 2

/-- First-occurrence-order deduplication: the JS pattern
`Set` of `"x,y"` keys (insertion order) followed by `Array.from`. -/
def insertOrderDedup (l : List Point) : List Point :=
  l.foldl (fun acc p => if p ∈ acc then acc else acc ++ [p]) []

/-- The x-then-y order used by the JS numeric sort comparator
`(ax === bx ? ay - by : ax - bx)`. -/
def ptLe (p q : Point) : Prop :=
  p.x < q.x ∨ (p.x = q.x ∧ p.y ≤ q.y)

instance : DecidableRel ptLe := fun p q => by unfold ptLe; infer_instance

instance : IsTotal Point ptLe := ⟨by intro p q; unfold ptLe; omega⟩

instance : IsTrans Point ptLe := ⟨by intro p q r; unfold ptLe; omega⟩

/-- Sorting by x then y.  JS `Array.prototype.sort` with the comparator
`(ax === bx ? ay - by : ax - bx)` produces the (unique, since elements are
pairwise distinct after dedup) x-then-y ascending order; any sort implementing
the same total order is extensionally identical, we use insertion sort. -/
def sortPts (l : List Point) : List Point :=
  l.insertionSort ptLe

/-- `geometry.js` `isSimplePolygon(vertices)` (the non-null case; the
`!vertices` guard is modelled by `isSimplePolygonJs` below).
The JS `new Set(vertices.map(v => x,y-key)).size !== vertices.length`
duplicate test counts distinct coordinate pairs, which is `dedup.length`. -/
def isSimplePolygon (vertices : List Point) : Bool :=
  if vertices.length < 3 then false
  else if vertices.dedup.length ≠ vertices.length then false
  else if |polygonAreaValue vertices| < 1 / 2 then false
  else
    let n := vertices.length
    (List.range n).all fun i =>
      (List.range n).all fun j =>
        -- JS: inner loop starts at j = i + 1, skips |i - j| <= 1 and (0, n-1)
        if j ≤ i + 1 ∨ (i = 0 ∧ j = n - 1) then true
        else !segmentsIntersect (vertices.getD i default) (vertices.getD ((i + 1) % n) default)
            (vertices.getD j default) (vertices.getD ((j + 1) % n) default)

/-- `isSimplePolygon` including the JS `!vertices` null/undefined guard:
`none` models a null/undefined argument. -/
def isSimplePolygonJs : Option (List Point) → Bool
  | none => false
  | some v => isSimplePolygon v

/-- `geometry.js` `trianglesOnOppositeSides(vertices)`. -/
def trianglesOnOppositeSides (vertices : List Point) : Bool :=
  match vertices with
  | [a, b, c, d] =>
    let oB := orientation a c b
    let oD := orientation a c d
    if oB = 0 ∨ oD = 0 then false else decide (oB * oD < 0)
  | _ => false

/-- `geometry.js` `gcd(a, b)`: the Euclidean loop on `Math.abs(a)`, `Math.abs(b)`
(returning `x` once `y = 0`), which computes `Nat.gcd |a| |b|` (0 when both are 0). -/
def gcdJs (a b : Int) : Nat :=
  Nat.gcd a.natAbs b.natAbs

/-- `geometry.js` `collectBoundaryPoints(vertices)`: per wrapping edge, sample
`gcd(|dx|, |dy|)` unit steps of the reduced step vector (`steps = 0` contributes
only the start point), dedup via a coordinate-keyed set, sort by x then y. -/
def collectBoundaryPoints (vertices : List Point) : List Point :=
  let pts := (List.range vertices.length).flatMap fun i =>
    let s := vertices.getD i default
    let e := vertices.getD ((i + 1) % vertices.length) default
    let dx := e.x - s.x
    let dy := e.y - s.y
    let steps := gcdJs dx dy
    if steps = 0 then [s]
    else
      let stepX := dx / steps
      let stepY := dy / steps
      (List.range (steps + 1)).map fun j => ⟨s.x + stepX * j, s.y + stepY * j⟩
  sortPts (insertOrderDedup pts)

/-! ### constants.js -/

/-- `constants.js` `inductionOuterTriangle`: right-angle vertex, base vertex, height vertex. -/
def inductionOuterTriangle : List Point :=
  [⟨-2, -2⟩, ⟨2, -2⟩, ⟨-2, 2⟩]

/-- `induction.js`: `const v0 = inductionOuterTriangle[0]` (right angle vertex). -/
def inductionV0 : Point :=
  inductionOuterTriangle.getD 0 default

/-- `induction.js`: `const n = inductionOuterTriangle[1].x - v0.x` (leg length = 4);
used as a nonnegative loop bound, hence `Nat`. -/
def legLength : Nat :=
  ((inductionOuterTriangle.getD 1 default).x - inductionV0.x).toNat

/-! ### induction.js: unit triangle decomposer -/

inductive TriType where
  | lower
  | upper
deriving DecidableEq, Repr

/-- The `gridPos` tag `{i, j, type}` attached to each decomposed triangle. -/
structure GridPos where
  i : Nat
  j : Nat
  type : TriType
deriving DecidableEq, Repr

/-- A decomposed triangle: `{vertices, gridPos}`. -/
structure Tri where
  vertices : List Point
  gridPos : GridPos
deriving DecidableEq, Repr

/-- The "lower" triangle pushed for grid cell (i, j). -/
def lowerTri (v0 : Point) (i j : Nat) : Tri :=
  { vertices := [⟨v0.x + i, v0.y + j⟩, ⟨v0.x + i + 1, v0.y + j⟩, ⟨v0.x + i, v0.y + j + 1⟩],
    gridPos := ⟨i, j, .lower⟩ }

/-- The "upper" triangle pushed for grid cell (i, j) when `i + j < n - 1`. -/
def upperTri (v0 : Point) (i j : Nat) : Tri :=
  { vertices := [⟨v0.x + i + 1, v0.y + j⟩, ⟨v0.x + i + 1, v0.y + j + 1⟩, ⟨v0.x + i, v0.y + j + 1⟩],
    gridPos := ⟨i, j, .upper⟩ }

/-- The decomposer loop of `buildInductionTriangles`: for `i` in `[0, n)`, `j` in
`[0, n - i)`, push the lower triangle, and when `i + j < n - 1` also the upper one. -/
def allTriangles (v0 : Point) (n : Nat) : List Tri :=
  (List.range n).flatMap fun i =>
    (List.range (n - i)).flatMap fun j =>
      lowerTri v0 i j :: (if i + j < n - 1 then [upperTri v0 i j] else [])

/-! ### induction.js: adjacency sequencer -/

/-- `sharesEdge(t1, t2)` of `buildInductionTriangles`: count the vertices of `a`
whose coordinate key occurs among the vertices of `b`; shared edge iff exactly 2. -/
def sharesEdge (a b : List Point) : Bool :=
  (a.filter fun p => decide (p ∈ b)).length == 2

/-- `getKey(tri)`: the sorted list of vertex keys.  The JS key is the `|`-join of
the lexicographically sorted `"x,y"` strings; two triangles get equal keys iff
their vertex lists are permutations of each other, which the canonical
x-then-y sorted vertex list captures exactly. -/
def triKey (vs : List Point) : List Point :=
  sortPts vs

/-- One scan of the `while` body's first `for` loop: the first triangle, in
generation order, that is unused and shares an edge with some placed triangle. -/
def pickNext (all : List Tri) (ordered used : List (List Point)) : Option Tri :=
  all.find? fun t =>
    !(decide (triKey t.vertices ∈ used)) && ordered.any fun av => sharesEdge av t.vertices

/-- The fallback scan: the first unused triangle in generation order. -/
def pickFallback (all : List Tri) (used : List (List Point)) : Option Tri :=
  all.find? fun t => !(decide (triKey t.vertices ∈ used))

/-- The `while (ordered.length < allTriangles.length)` loop of
`buildInductionTriangles`, with explicit fuel (each JS iteration appends exactly
one triangle, so `all.length + 1` fuel makes the fuel guard unreachable).
The returned flag records whether the fallback branch was ever taken. -/
def seqLoop (all : List Tri) :
    Nat → List (List Point) → List (List Point) → Bool → List (List Point) × Bool
  | 0, ordered, _, flag => (ordered, flag)
  | fuel + 1, ordered, used, flag =>
    if ordered.length < all.length then
      match pickNext all ordered used with
      | some t => seqLoop all fuel (ordered ++ [t.vertices]) (used ++ [triKey t.vertices]) flag
      | none =>
        match pickFallback all used with
        | some t => seqLoop all fuel (ordered ++ [t.vertices]) (used ++ [triKey t.vertices]) true
        | none => (ordered, flag)
    else (ordered, flag)

/-- `buildInductionTriangles()` of `induction.js`, returning the ordered list of
vertex triples it stores into `state.inductionTriangles`, paired with the
fallback-usage flag. -/
def buildInductionTriangles : List (List Point) × Bool :=
  let all := allTriangles inductionV0 legLength
  match all.find? fun t => decide (t.gridPos = ⟨0, 0, .lower⟩) with
  | some startTri =>
    seqLoop all (all.length + 1) [startTri.vertices] [triKey startTri.vertices] false
  | none => seqLoop all (all.length + 1) [] [] false

/-- The cached `state.inductionTriangles` sequence. -/
def inductionTriangles : List (List Point) :=
  buildInductionTriangles.1

/-- Whether the sequencer's defensive fallback branch was ever executed. -/
def sequencerFallbackUsed : Bool :=
  buildInductionTriangles.2

/-! ### induction.js: accumulated region hull builder -/

/-- The JS `points.reduce((a, b) => a.x < b.x || (a.x === b.x && a.y < b.y) ? a : b)`:
fold from the first element, keeping `a` unless `b` is strictly smaller. -/
def lexMin (ps : List Point) : Point :=
  match ps with
  | [] => default
  | p :: rest =>
    rest.foldl (fun a b => if a.x < b.x ∨ (a.x = b.x ∧ a.y < b.y) then a else b) p

/-- The inner `for (const p of points)` of the gift wrap:
`let next = points[0]`, replace `next` by `p` whenever `next === current` or
`orientation(current, next, p) < 0`.  Object identity on the deduplicated
points coincides with coordinate equality. -/
def chooseNext (points : List Point) (current : Point) : Point :=
  match points with
  | [] => current
  | p0 :: _ =>
    points.foldl (fun nx p => if nx = current ∨ orientation current nx p < 0 then p else nx) p0

/-- The `do { hull.push(current); ... } while (current !== start && hull.length < points.length + 1)`
gift-wrapping walk, fuel-based.  The guard bounds the pushes by `points.length + 1`,
so any fuel `≥ points.length + 2` gives the exact JS behaviour. -/
def giftWrapLoop (points : List Point) (start : Point) :
    Nat → Point → List Point → List Point
  | 0, _, hull => hull
  | fuel + 1, current, hull =>
    let hull' := hull ++ [current]
    let nx := chooseNext points current
    if nx ≠ start ∧ hull'.length < points.length + 1 then
      giftWrapLoop points start fuel nx hull'
    else hull'

/-- `getAccumulatedPolygon(stepIndex)` of `induction.js`, parameterized by the
cached sequence (`state.inductionTriangles`). -/
def getAccumulatedPolygon (tris : List (List Point)) (stepIndex : Nat) : List Point :=
  if stepIndex = 0 then []
  else if tris.length ≤ stepIndex then inductionOuterTriangle
  else
    let points := insertOrderDedup ((tris.take stepIndex).flatten)
    if points.length < 3 then points
    else giftWrapLoop points (lexMin points) (points.length + 2) (lexMin points) []

/-! ### induction.js: shared edge locator -/

/-- `getSharedEdgeForStep(stepIndex)` of `induction.js`: first edge of the new
triangle whose endpoints both occur among the accumulated hull's vertices and
which matches a hull edge in either direction. -/
def getSharedEdgeForStep (tris : List (List Point)) (stepIndex : Nat) : Option (Point × Point) :=
  if stepIndex = 0 ∨ tris.length ≤ stepIndex then none
  else
    let newTri := tris.getD stepIndex []
    let acc := getAccumulatedPolygon tris stepIndex
    if acc.length < 2 then none
    else
      (List.range 3).findSome? fun i =>
        let e1 := newTri.getD i default
        let e2 := newTri.getD ((i + 1) % 3) default
        if decide (e1 ∈ acc) && decide (e2 ∈ acc) &&
            ((List.range acc.length).any fun j =>
              let a1 := acc.getD j default
              let a2 := acc.getD ((j + 1) % acc.length) default
              decide ((a1 = e1 ∧ a2 = e2) ∨ (a1 = e2 ∧ a2 = e1)))
        then some (e1, e2) else none

/-! ### Observers used to state the claims -/

/-- The concatenated vertices of the first `k` triangles of a sequence
(membership in it is membership in the union of their vertex sets). -/
def prefixVertices (tris : List (List Point)) (k : Nat) : List Point :=
  (tris.take k).flatten

/-- Number of vertices of `tri` that occur among `pts`, by exact coordinate match. -/
def sharedVertexCount (tri pts : List Point) : Nat :=
  (tri.filter fun p => decide (p ∈ pts)).length

/-- Every vertex of `poly` occurs among `pts`. -/
def vertsWithin (poly pts : List Point) : Prop :=
  ∀ p ∈ poly, p ∈ pts

instance (poly pts : List Point) : Decidable (vertsWithin poly pts) := by
  unfold vertsWithin; exact List.decidableBAll _ _

/-- The orientation test of every consecutive vertex triple of `poly`
(wrapping) is non-negative. -/
def convexCcwScan (poly : List Point) : Prop :=
  ∀ i, i < poly.length →
    0 ≤ orientation (poly.getD i default) (poly.getD ((i + 1) % poly.length) default)
        (poly.getD ((i + 2) % poly.length) default)

instance (poly : List Point) : Decidable (convexCcwScan poly) := by
  unfold convexCcwScan; exact Nat.decidableBallLT _ _

/-- The simplicity contract of spec §4.5, stated from the spec's words (for the
refinement claim about `isSimplePolygon`): all vertices pairwise distinct, the
absolute signed area at least 0.5, and no two non-adjacent edges intersecting,
where non-adjacent excludes consecutive pairs and the wrap-around (first, last)
pair. -/
def simplePolygonSpec (v : List Point) : Prop :=
  v.Nodup ∧ 1 / 2 ≤ |polygonAreaValue v| ∧
  ∀ i j, i + 2 ≤ j → j < v.length → ¬(i = 0 ∧ j = v.length - 1) →
    segmentsIntersect (v.getD i default) (v.getD ((i + 1) % v.length) default)
      (v.getD j default) (v.getD ((j + 1) % v.length) default) = false

/-! ### General lemmas -/

theorem dedup_length_eq_iff (l : List Point) : l.dedup.length = l.length ↔ l.Nodup := by
  constructor
  · intro h
    rw [← List.dedup_eq_self]
    exact (List.dedup_sublist l).eq_of_length h
  · intro h
    rw [List.dedup_eq_self.mpr h]

/-! ### Claim theorems -/

/-- C3: for the supported leg length (n = 4), the Adjacency Sequencer's fallback
branch is never executed: the loop completes placing all 16 triangles, and at
every iteration (placed prefix of size k+1, k < 15) the edge-adjacency scan
finds a remaining triangle sharing exactly two vertices with a placed one. -/
theorem c3_sequencer_fallback_never_executed :
    sequencerFallbackUsed = false ∧
    inductionTriangles.length = (allTriangles inductionV0 legLength).length ∧
    ∀ k, k < 15 → (pickNext (allTriangles inductionV0 legLength)
      (inductionTriangles.take (k + 1))
      ((inductionTriangles.take (k + 1)).map triKey)).isSome = true := by
  refine ⟨by decide, by decide, ?_⟩
  have h : ((List.range 15).all fun k => (pickNext (allTriangles inductionV0 legLength)
      (inductionTriangles.take (k + 1))
      ((inductionTriangles.take (k + 1)).map triKey)).isSome) = true := by decide
  intro k hk
  exact List.all_eq_true.mp h k (List.mem_range.mpr hk)

/-- Witness for C3 at the concrete iteration k = 7. -/
theorem c3_sequencer_fallback_never_executed_witness :
    7 < 15 ∧ (pickNext (allTriangles inductionV0 legLength)
      (inductionTriangles.take 8) ((inductionTriangles.take 8).map triKey)).isSome = true :=
  ⟨by decide, c3_sequencer_fallback_never_executed.2.2 7 (by decide)⟩

/-- C4: `getAccumulatedPolygon` returns the empty list at step 0 and, for every
step index at or beyond the total triangle count T = 16 of the cached sequence,
returns the fixed outer triangle's 3-vertex list verbatim. -/
theorem c4_accumulated_polygon_boundary_steps :
    getAccumulatedPolygon inductionTriangles 0 = [] ∧
    inductionTriangles.length = 16 ∧
    ∀ k, 16 ≤ k → getAccumulatedPolygon inductionTriangles k = inductionOuterTriangle := by
  have hlen : inductionTriangles.length = 16 := by decide
  refine ⟨rfl, hlen, ?_⟩
  intro k hk
  unfold getAccumulatedPolygon
  rw [if_neg (by omega), if_pos (by omega)]

/-- Witness for C4 at the concrete step k = 20. -/
theorem c4_accumulated_polygon_boundary_steps_witness :
    16 ≤ 20 ∧ getAccumulatedPolygon inductionTriangles 20 = inductionOuterTriangle :=
  ⟨by decide, c4_accumulated_polygon_boundary_steps.2.2 20 (by decide)⟩

/-- C10: inputs outside the documented domain — a null/undefined argument
(modelled as `none`) or a vertex list with fewer than 3 points — make
`isSimplePolygon` return `false` as a defined value. -/
theorem c10_simple_polygon_out_of_domain_false :
    isSimplePolygonJs none = false ∧
    ∀ v : List Point, v.length < 3 → isSimplePolygonJs (some v) = false := by
  refine ⟨rfl, ?_⟩
  intro v hv
  show isSimplePolygon v = false
  unfold isSimplePolygon
  rw [if_pos hv]

/-- Witness for C10 at the concrete one-point list. -/
theorem c10_simple_polygon_out_of_domain_false_witness :
    ([(⟨0, 0⟩ : Point)] : List Point).length < 3 ∧
      isSimplePolygonJs (some [(⟨0, 0⟩ : Point)]) = false :=
  ⟨by decide, c10_simple_polygon_out_of_domain_false.2 [⟨0, 0⟩] (by decide)⟩

/-- C1: for n = 4 the Adjacency Sequencer's output is a permutation of the
decomposer's 16 triangles (as vertex lists) in which, for every index k with
0 < k < 16, the triangle at index k shares at least 2 vertices (by exact
coordinate match) with the union of the vertices of the triangles at
indices [0, k). -/
theorem c1_sequencer_adjacent_permutation :
    inductionTriangles.Perm ((allTriangles inductionV0 legLength).map Tri.vertices) ∧
    (allTriangles inductionV0 legLength).length = 16 ∧
    ∀ k, 0 < k → k < 16 →
      2 ≤ sharedVertexCount (inductionTriangles.getD k []) (prefixVertices inductionTriangles k) := by
  refine ⟨by decide, by decide, ?_⟩
  have h : ((List.range 15).all fun m => decide (2 ≤
      sharedVertexCount (inductionTriangles.getD (m + 1) [])
        (prefixVertices inductionTriangles (m + 1)))) = true := by decide
  intro k hk hk16
  obtain ⟨m, rfl⟩ : ∃ m, k = m + 1 := ⟨k - 1, by omega⟩
  exact of_decide_eq_true (List.all_eq_true.mp h m (List.mem_range.mpr (by omega)))

/-- Witness for C1 at the concrete index k = 5. -/
theorem c1_sequencer_adjacent_permutation_witness :
    0 < 5 ∧ 5 < 16 ∧
      2 ≤ sharedVertexCount (inductionTriangles.getD 5 []) (prefixVertices inductionTriangles 5) :=
  ⟨by decide, by decide, c1_sequencer_adjacent_permutation.2.2 5 (by decide) (by decide)⟩

/-- C5: for every k with 0 < k ≤ 16 (T = 16), every vertex of
`getAccumulatedPolygon k` is a vertex of some triangle among the first k
triangles of the sequence, the polygon has no repeated closing point (its
vertices are pairwise distinct), and the orientation test of every consecutive
vertex triple (wrapping) is non-negative (convex, counter-clockwise). -/
theorem c5_accumulated_hull_vertices_convex :
    ∀ k, 0 < k → k ≤ 16 →
      vertsWithin (getAccumulatedPolygon inductionTriangles k) (prefixVertices inductionTriangles k) ∧
      (getAccumulatedPolygon inductionTriangles k).Nodup ∧
      convexCcwScan (getAccumulatedPolygon inductionTriangles k) := by
  have h : ((List.range 16).all fun m => decide (
      vertsWithin (getAccumulatedPolygon inductionTriangles (m + 1))
        (prefixVertices inductionTriangles (m + 1)) ∧
      (getAccumulatedPolygon inductionTriangles (m + 1)).Nodup ∧
      convexCcwScan (getAccumulatedPolygon inductionTriangles (m + 1)))) = true := by decide
  intro k hk hk16
  obtain ⟨m, rfl⟩ : ∃ m, k = m + 1 := ⟨k - 1, by omega⟩
  exact of_decide_eq_true (List.all_eq_true.mp h m (List.mem_range.mpr (by omega)))

/-- Witness for C5 at the concrete prefix length k = 4. -/
theorem c5_accumulated_hull_vertices_convex_witness :
    0 < 4 ∧ 4 ≤ 16 ∧
      (vertsWithin (getAccumulatedPolygon inductionTriangles 4) (prefixVertices inductionTriangles 4) ∧
      (getAccumulatedPolygon inductionTriangles 4).Nodup ∧
      convexCcwScan (getAccumulatedPolygon inductionTriangles 4)) :=
  ⟨by decide, by decide, c5_accumulated_hull_vertices_convex 4 (by decide) (by decide)⟩

/-- C6: in the n = 4 sequence the triangle with grid tag (0,0)-upper is placed
at step 1, immediately after (0,0)-lower, and `getSharedEdgeForStep 1` returns
(not null) exactly the edge shared between those two triangles — the two
vertices they have in common — which matches an edge of the step-1 accumulated
hull in reversed direction. -/
theorem c6_shared_edge_at_first_upper_step :
    inductionTriangles.getD 0 [] = (lowerTri inductionV0 0 0).vertices ∧
    inductionTriangles.getD 1 [] = (upperTri inductionV0 0 0).vertices ∧
    getSharedEdgeForStep inductionTriangles 1 = some (⟨-2, -1⟩, ⟨-1, -2⟩) ∧
    ((lowerTri inductionV0 0 0).vertices.filter fun p =>
      decide (p ∈ (upperTri inductionV0 0 0).vertices)) = [⟨-1, -2⟩, ⟨-2, -1⟩] ∧
    ((List.range (getAccumulatedPolygon inductionTriangles 1).length).any fun j =>
      let a1 := (getAccumulatedPolygon inductionTriangles 1).getD j default
      let a2 := (getAccumulatedPolygon inductionTriangles 1).getD
        ((j + 1) % (getAccumulatedPolygon inductionTriangles 1).length) default
      decide ((a1 = (⟨-2, -1⟩ : Point) ∧ a2 = (⟨-1, -2⟩ : Point)) ∨
        (a1 = (⟨-1, -2⟩ : Point) ∧ a2 = (⟨-2, -1⟩ : Point)))) = true := by
  refine ⟨by decide, by decide, by decide, by decide, by decide⟩

/-- C8: for a 4-vertex list (a, b, c, d), `trianglesOnOppositeSides` returns
true iff `orientation a c b` and `orientation a c d` are both non-zero and of
opposite sign; in particular it returns true for the default additive
configuration [(-4,-1), (3,-1), (2,4), (-3,4)] and false for four collinear
points. -/
theorem c8_opposite_sides_characterization :
    (∀ a b c d : Point, trianglesOnOppositeSides [a, b, c, d] = true ↔
      (orientation a c b ≠ 0 ∧ orientation a c d ≠ 0 ∧
        orientation a c b * orientation a c d < 0)) ∧
    trianglesOnOppositeSides [⟨-4, -1⟩, ⟨3, -1⟩, ⟨2, 4⟩, ⟨-3, 4⟩] = true ∧
    trianglesOnOppositeSides [⟨0, 0⟩, ⟨1, 0⟩, ⟨2, 0⟩, ⟨3, 0⟩] = false := by
  refine ⟨?_, by decide, by decide⟩
  intro a b c d
  show (if orientation a c b = 0 ∨ orientation a c d = 0 then false
      else decide (orientation a c b * orientation a c d < 0)) = true ↔ _
  split_ifs with h
  · simp only [Bool.false_eq_true, false_iff]
    rintro ⟨h1, h2, -⟩
    rcases h with h | h <;> [exact h1 h; exact h2 h]
  · push_neg at h
    simp only [decide_eq_true_eq]
    exact ⟨fun hlt => ⟨h.1, h.2, hlt⟩, fun ⟨_, _, hlt⟩ => hlt⟩

theorem insertOrderDedup_nodup (l : List Point) : (insertOrderDedup l).Nodup := by
  suffices h : ∀ (l acc : List Point), acc.Nodup →
      (l.foldl (fun acc p => if p ∈ acc then acc else acc ++ [p]) acc).Nodup by
    exact h l [] List.nodup_nil
  intro l
  induction l with
  | nil => intro acc hacc; simpa using hacc
  | cons p t ih =>
    intro acc hacc
    rw [List.foldl_cons]
    by_cases hp : p ∈ acc
    · rw [if_pos hp]; exact ih acc hacc
    · rw [if_neg hp]
      refine ih _ (List.nodup_append.mpr ⟨hacc, List.nodup_singleton p, ?_⟩)
      intro x hx hx'
      rw [List.mem_singleton] at hx'
      exact hp (hx' ▸ hx)

/-- C9: `collectBoundaryPoints` returns, for any input polygon, a deduplicated
list sorted by x then y; on the two-vertex list [(0,0), (3,0)] it returns
exactly [(0,0), (1,0), (2,0), (3,0)] and on [(0,0), (2,2)] exactly
[(0,0), (1,1), (2,2)] (each edge sampled at gcd(|dx|, |dy|) + 1 multiples of
the reduced step vector). -/
theorem c9_collect_boundary_points :
    (∀ v : List Point, (collectBoundaryPoints v).Sorted ptLe ∧ (collectBoundaryPoints v).Nodup) ∧
    collectBoundaryPoints [⟨0, 0⟩, ⟨3, 0⟩] = [⟨0, 0⟩, ⟨1, 0⟩, ⟨2, 0⟩, ⟨3, 0⟩] ∧
    collectBoundaryPoints [⟨0, 0⟩, ⟨2, 2⟩] = [⟨0, 0⟩, ⟨1, 1⟩, ⟨2, 2⟩] := by
  refine ⟨?_, by decide, by decide⟩
  intro v
  constructor
  · exact List.sorted_insertionSort ptLe _
  · exact ((List.perm_insertionSort ptLe _).nodup_iff).mpr (insertOrderDedup_nodup _)


theorem polygonArea2_three (a b c : Point) :
    polygonArea2 [a, b, c]
      = a.x * b.y - b.x * a.y + (b.x * c.y - c.x * b.y) + (c.x * a.y - a.x * c.y) := by
  unfold polygonArea2
  simp only [List.length_cons, List.length_nil]
  norm_num [List.range_succ]

theorem areaValue_lowerTri (v0 : Point) (i j : Nat) :
    |polygonAreaValue (lowerTri v0 i j).vertices| = 1 / 2 := by
  have h2 : polygonArea2 (lowerTri v0 i j).vertices = 1 := by
    show polygonArea2 [⟨v0.x + i, v0.y + j⟩, ⟨v0.x + i + 1, v0.y + j⟩, ⟨v0.x + i, v0.y + j + 1⟩] = 1
    rw [polygonArea2_three]
    ring
  unfold polygonAreaValue
  rw [if_neg (by simp [lowerTri]), h2]
  norm_num

theorem areaValue_upperTri (v0 : Point) (i j : Nat) :
    |polygonAreaValue (upperTri v0 i j).vertices| = 1 / 2 := by
  have h2 : polygonArea2 (upperTri v0 i j).vertices = 1 := by
    show polygonArea2 [⟨v0.x + i + 1, v0.y + j⟩, ⟨v0.x + i + 1, v0.y + j + 1⟩, ⟨v0.x + i, v0.y + j + 1⟩] = 1
    rw [polygonArea2_three]
    ring
  unfold polygonAreaValue
  rw [if_neg (by simp [upperTri]), h2]
  norm_num

theorem flatMapConsIte_length (m c : Nat) (f g : Nat → Tri) :
    ((List.range m).flatMap fun j => f j :: (if j < c then [g j] else [])).length
      = m + min m c := by
  induction m with
  | zero => simp
  | succ m ih =>
    rw [List.range_succ, List.flatMap_append, List.length_append, ih]
    simp only [List.flatMap_cons, List.flatMap_nil, List.append_nil, List.length_cons]
    split_ifs with h <;> simp <;> omega

theorem map_sum_shift (l : List Nat) (f g : Nat → Nat) (h : ∀ i ∈ l, f i = g i + 2) :
    (l.map f).sum = (l.map g).sum + 2 * l.length := by
  induction l with
  | nil => simp
  | cons a t ih =>
    simp only [List.map_cons, List.sum_cons, List.length_cons]
    rw [h a (List.mem_cons_self a t), ih (fun i hi => h i (List.mem_cons_of_mem a hi))]
    ring

theorem sum_desc (n : Nat) : ((List.range n).map fun i => (n - i) + (n - 1 - i)).sum = n * n := by
  induction n with
  | zero => simp
  | succ n ih =>
    rw [List.range_succ, List.map_append, List.sum_append]
    have hshift : ((List.range n).map fun i => (n + 1 - i) + (n + 1 - 1 - i)).sum
        = ((List.range n).map fun i => (n - i) + (n - 1 - i)).sum + 2 * n := by
      have hlen : (List.range n).length = n := List.length_range n
      have := map_sum_shift (List.range n) (fun i => (n + 1 - i) + (n + 1 - 1 - i))
        (fun i => (n - i) + (n - 1 - i))
        (fun i hi => by
          show n + 1 - i + (n + 1 - 1 - i) = (n - i + (n - 1 - i)) + 2
          have : i < n := List.mem_range.mp hi
          omega)
      rw [hlen] at this
      exact this
    rw [hshift, ih]
    simp only [List.map_cons, List.map_nil, List.sum_cons, List.sum_nil]
    have h1 : n + 1 - n = 1 := by omega
    have h2 : n + 1 - 1 - n = 0 := by omega
    rw [h1, h2]
    ring

theorem allTriangles_length (v0 : Point) (n : Nat) : (allTriangles v0 n).length = n * n := by
  rw [allTriangles, List.length_flatMap]
  have h1 : ∀ i, (List.length ∘ fun i => (List.range (n - i)).flatMap fun j =>
      lowerTri v0 i j :: (if i + j < n - 1 then [upperTri v0 i j] else [])) i
      = (n - i) + (n - 1 - i) := by
    intro i
    show ((List.range (n - i)).flatMap fun j =>
      lowerTri v0 i j :: (if i + j < n - 1 then [upperTri v0 i j] else [])).length = _
    have hcong : (fun j => lowerTri v0 i j :: (if i + j < n - 1 then [upperTri v0 i j] else []))
        = (fun j => lowerTri v0 i j :: (if j < n - 1 - i then [upperTri v0 i j] else [])) := by
      funext j
      congr 1
      split_ifs with ha hb <;> first | rfl | omega
    rw [hcong, flatMapConsIte_length]
    omega
  rw [List.map_congr_left fun i _ => h1 i, sum_desc]

theorem mem_allTriangles (v0 : Point) (n : Nat) (t : Tri) :
    t ∈ allTriangles v0 n ↔
      (∃ i j, i < n ∧ j < n - i ∧ t = lowerTri v0 i j) ∨
      (∃ i j, i < n ∧ j < n - i ∧ i + j < n - 1 ∧ t = upperTri v0 i j) := by
  unfold allTriangles
  simp only [List.mem_flatMap, List.mem_range, List.mem_cons]
  constructor
  · rintro ⟨i, hi, j, hj, h⟩
    rcases h with h | h
    · exact Or.inl ⟨i, j, hi, hj, h⟩
    · by_cases hc : i + j < n - 1
      · rw [if_pos hc] at h
        rw [List.mem_singleton] at h
        exact Or.inr ⟨i, j, hi, hj, hc, h⟩
      · rw [if_neg hc] at h
        exact absurd h (List.not_mem_nil t)
  · rintro (⟨i, j, hi, hj, rfl⟩ | ⟨i, j, hi, hj, hc, rfl⟩)
    · exact ⟨i, hi, j, hj, Or.inl rfl⟩
    · exact ⟨i, hi, j, hj, Or.inr (by rw [if_pos hc, List.mem_singleton])⟩

theorem allTriangles_area_sum (v0 : Point) (n : Nat) :
    ((allTriangles v0 n).map fun t => |polygonAreaValue t.vertices|).sum = (n * n : ℚ) / 2 := by
  rw [List.sum_eq_card_nsmul _ ((1 : ℚ) / 2) ?_, List.length_map, allTriangles_length]
  · rw [nsmul_eq_mul]
    push_cast
    ring
  · intro x hx
    rw [List.mem_map] at hx
    obtain ⟨t, ht, rfl⟩ := hx
    rcases (mem_allTriangles v0 n t).mp ht with ⟨i, j, _, _, rfl⟩ | ⟨i, j, _, _, _, rfl⟩
    · exact areaValue_lowerTri v0 i j
    · exact areaValue_upperTri v0 i j

/-- C2: for every positive leg length n the Unit Triangle Decomposer emits
exactly n^2 triangles — a lower triangle for each grid cell (i, j) with
0 ≤ i < n, 0 ≤ j < n − i, plus an upper triangle exactly when i + j < n − 1 —
and the areas of the emitted triangles sum to n^2/2 in exact rational
arithmetic. -/
theorem c2_decomposer_count_and_area (v0 : Point) (n : Nat) (_hn : 0 < n) :
    (allTriangles v0 n).length = n ^ 2 ∧
    (∀ t, t ∈ allTriangles v0 n ↔
      (∃ i j, i < n ∧ j < n - i ∧ t = lowerTri v0 i j) ∨
      (∃ i j, i < n ∧ j < n - i ∧ i + j < n - 1 ∧ t = upperTri v0 i j)) ∧
    ((allTriangles v0 n).map fun t => |polygonAreaValue t.vertices|).sum = (n ^ 2 : ℚ) / 2 := by
  refine ⟨?_, mem_allTriangles v0 n, ?_⟩
  · rw [allTriangles_length, pow_two]
  · rw [allTriangles_area_sum]
    ring

/-- Witness for C2 at the repository's own configuration v0 = (−2, −2), n = 4. -/
theorem c2_decomposer_count_and_area_witness :
    0 < 4 ∧ ((allTriangles inductionV0 4).length = 4 ^ 2 ∧
      (∀ t, t ∈ allTriangles inductionV0 4 ↔
        (∃ i j, i < 4 ∧ j < 4 - i ∧ t = lowerTri inductionV0 i j) ∨
        (∃ i j, i < 4 ∧ j < 4 - i ∧ i + j < 4 - 1 ∧ t = upperTri inductionV0 i j)) ∧
      ((allTriangles inductionV0 4).map fun t => |polygonAreaValue t.vertices|).sum = (4 ^ 2 : ℚ) / 2) :=
  ⟨by decide, c2_decomposer_count_and_area inductionV0 4 (by decide)⟩

theorem abs_areaValue_lt_half_iff (v : List Point) (h3 : 3 ≤ v.length) :
    |polygonAreaValue v| < 1 / 2 ↔ polygonArea2 v = 0 := by
  unfold polygonAreaValue
  rw [if_neg (by omega)]
  constructor
  · intro h
    by_contra hz
    have h1 : (1 : ℚ) ≤ |(polygonArea2 v : ℚ)| := by
      rw [← Int.cast_abs]
      exact_mod_cast Int.one_le_abs hz
    rw [abs_div, abs_two] at h
    linarith
  · intro hz
    rw [hz]
    norm_num

/-- C7: for every vertex list of at least 3 points, `isSimplePolygon` returns
true iff all vertices are pairwise distinct, the absolute signed area is at
least 0.5, and no two non-adjacent edges intersect (excluding edge pairs
sharing an endpoint and the wrap-around first/last pair); in particular it
returns false for the bowtie quadrilateral [(0,0), (2,2), (2,0), (0,2)] and
true for the square [(0,0), (2,0), (2,2), (0,2)]. -/
theorem c7_simple_polygon_characterization :
    (∀ v : List Point, 3 ≤ v.length → (isSimplePolygon v = true ↔ simplePolygonSpec v)) ∧
    isSimplePolygon [⟨0, 0⟩, ⟨2, 2⟩, ⟨2, 0⟩, ⟨0, 2⟩] = false ∧
    isSimplePolygon [⟨0, 0⟩, ⟨2, 0⟩, ⟨2, 2⟩, ⟨0, 2⟩] = true := by
  refine ⟨?_, ?_, ?_⟩
  · intro v hv
    unfold isSimplePolygon
    rw [if_neg (by omega)]
    split_ifs with h1 h2
    · simp only [Bool.false_eq_true, false_iff]
      intro hspec
      exact h1 ((dedup_length_eq_iff v).mpr hspec.1)
    · simp only [Bool.false_eq_true, false_iff]
      intro hspec
      have := hspec.2.1
      linarith
    · have hnodup : v.Nodup := (dedup_length_eq_iff v).mp (not_ne_iff.mp h1)
      have harea : 1 / 2 ≤ |polygonAreaValue v| := not_lt.mp h2
      constructor
      · intro hall
        refine ⟨hnodup, harea, ?_⟩
        intro i j hij hj hne
        have hi := List.all_eq_true.mp hall i (List.mem_range.mpr (by omega))
        have hj' := List.all_eq_true.mp hi j (List.mem_range.mpr hj)
        rw [if_neg (by
          push_neg
          exact ⟨by omega, fun hi0 hjn => hne ⟨hi0, hjn⟩⟩)] at hj'
        simpa using hj'
      · intro hspec
        simp only [List.all_eq_true, List.mem_range]
        intro i hi j hj
        by_cases hskip : j ≤ i + 1 ∨ (i = 0 ∧ j = v.length - 1)
        · rw [if_pos hskip]
        · rw [if_neg hskip]
          push_neg at hskip
          rw [hspec.2.2 i j (by omega) hj (by
            rintro ⟨hi0, hjn⟩
            exact absurd hjn (hskip.2 hi0))]
          rfl
  · unfold isSimplePolygon
    rw [if_neg (by decide), if_neg (by decide),
      if_pos ((abs_areaValue_lt_half_iff _ (by decide)).mpr (by decide))]
  · unfold isSimplePolygon
    rw [if_neg (by decide), if_neg (by decide),
      if_neg ((not_iff_not.mpr (abs_areaValue_lt_half_iff _ (by decide))).mpr (by decide))]
    decide

/-- Witness for C7: the characterization applied to the concrete square. -/
theorem c7_simple_polygon_characterization_witness :
    3 ≤ ([⟨0, 0⟩, ⟨2, 0⟩, ⟨2, 2⟩, ⟨0, 2⟩] : List Point).length ∧
      (isSimplePolygon [⟨0, 0⟩, ⟨2, 0⟩, ⟨2, 2⟩, ⟨0, 2⟩] = true ↔
        simplePolygonSpec [⟨0, 0⟩, ⟨2, 0⟩, ⟨2, 2⟩, ⟨0, 2⟩]) :=
  ⟨by decide, c7_simple_polygon_characterization.1 [⟨0, 0⟩, ⟨2, 0⟩, ⟨2, 2⟩, ⟨0, 2⟩] (by decide)⟩
